import Mathlib

/-!
Verification of the pattern-similarity core of `stock_pattern_matcher.py`
(`StockPatternMatcher`).  Prices and all numeric computation are embedded
over `ℚ` (the Python code computes with floats); the IEEE value `inf` is
modelled by `⊤ : WithTop ℚ` and the IEEE value `NaN` produced by
`np.corrcoef` on a zero-variance input is modelled by `none`.

The Python method `calculate_dtw_distance` delegates to the `fastdtw`
package (pure-Python reference implementation, `fastdtw/_fastdtw.py`,
default `radius=1`, 1-D inputs, so `dist = abs difference`); that
algorithm is embedded below (`reduce_by_half`, `expand_window`, the
windowed dynamic program `dtw_windowed`, and the recursion `fastdtwQ`).
-/

set_option allowUnsafeReducibility true
set_option maxRecDepth 40000
attribute [local semireducible] Rat.sub Rat.add Rat.mul Rat.inv Rat.ofScientific

namespace StockPatternMatcher

/-- `normalize_series` (source lines 71–78): rescale a sequence.
`min_val = np.min`, `max_val = np.max`; for a constant sequence return
`np.zeros_like(series)`, otherwise `(v - min) / (max - min)` elementwise.
`np.min`/`np.max` raise on an empty input; the empty case is modelled as
`[]` (all claims about this function assume a non-empty input). -/
def normalize_series (series : List ℚ) : List ℚ :=
  match series.min?, series.max? with
  | some mn, some mx =>
    if mx = mn then series.map (fun _ => 0)
    else series.map (fun v => (v - mn) / (mx - mn))
  | _, _ => []

/-- Mean of a list, `sum/len` (division by zero yields `0` in `ℚ`;
only used on non-empty lists). -/
def mean (l : List ℚ) : ℚ := l.sum / l.length

/-- Sum of squared deviations from the mean: the (unnormalized) variance
numerator used by `np.corrcoef`.  A sequence has zero variance iff this
sum is `0`. -/
def sqDevSum (l : List ℚ) : ℚ := (l.map (fun v => (v - mean l) ^ 2)).sum

/-- Covariance numerator `Σ (xᵢ - x̄)(yᵢ - ȳ)`. -/
def covSum (x y : List ℚ) : ℚ :=
  ((x.zip y).map (fun p => (p.1 - mean x) * (p.2 - mean y))).sum

/-- `np.corrcoef(x, y)[0, 1]`, the Pearson correlation coefficient
`r = covSum / √(sqDevSum x · sqDevSum y)`.  Because `√` is irrational, a
defined value is represented exactly by the pair
`(covSum x y, sqDevSum x * sqDevSum y)` (denoting `n / √d`); when either
sequence has zero variance `np.corrcoef` produces IEEE `NaN`
(a `0/0` division, warnings suppressed by the program), modelled `none`. -/
def corrcoefQ (x y : List ℚ) : Option (ℚ × ℚ) :=
  if sqDevSum x = 0 ∨ sqDevSum y = 0 then none
  else some (covSum x y, sqDevSum x * sqDevSum y)

/-- The full dynamic-programming DTW cumulative-cost grid, exactly as the
specification's recurrence states it: `dtwD a b 0 0 = 0`, every other
boundary cell is `∞`, and
`dtwD a b (i+1) (j+1) = |a[i] - b[j]| + min (min up left) diag`. -/
def dtwD (a b : List ℚ) : Nat → Nat → WithTop ℚ
  | 0, 0 => 0
  | 0, _ + 1 => ⊤
  | _ + 1, 0 => ⊤
  | i + 1, j + 1 =>
    ((|a.getD i 0 - b.getD j 0| : ℚ) : WithTop ℚ) +
      min (min (dtwD a b i (j + 1)) (dtwD a b (i + 1) j)) (dtwD a b i j)
  termination_by i j => i + j
  decreasing_by all_goals omega

/-- The full-DP dynamic-time-warping distance: the cumulative cost at the
terminal cell `(len a, len b)`. -/
def dtwFull (a b : List ℚ) : WithTop ℚ := dtwD a b a.length b.length

/-! ### The `fastdtw` package (pure-Python `fastdtw/_fastdtw.py`) -/

/-- One entry of the mutable map `D` of `__dtw`: cumulative cost and the
stored predecessor coordinates. -/
abbrev DEntry := WithTop ℚ × Nat × Nat

/-- Lookup in the map `D = defaultdict(lambda: (float('inf'),))` of
`__dtw`, most recent binding first.  The default entry is the 1-tuple
`(inf,)`; reading its (absent) predecessor components would raise
`IndexError` in Python, which never happens in a terminating run — the
default is modelled as `(⊤, 0, 0)`. -/
def dlookup (D : List ((Nat × Nat) × DEntry)) (k : Nat × Nat) : DEntry :=
  match D.find? (fun e => e.1 = k) with
  | some e => e.2
  | none => (⊤, 0, 0)

/-- Python's `min(u, v, w, key=lambda a: a[0])`: iterates left to right and
replaces the current best only on a strictly smaller key, so the first of
several tied entries wins. -/
def pickMin (u v w : DEntry) : DEntry :=
  let b := if v.1 < u.1 then v else u
  if w.1 < b.1 then w else b

/-- The loop body of `__dtw` at the (already `+1`-shifted) cell `(i, j)`:
`dt = dist(x[i-1], y[j-1])` and
`D[i,j] = min((D[i-1,j][0]+dt, i-1, j), (D[i,j-1][0]+dt, i, j-1),
(D[i-1,j-1][0]+dt, i-1, j-1), key=first)`. -/
def dtwStep (x y : List ℚ) (D : List ((Nat × Nat) × DEntry)) (c : Nat × Nat) :
    List ((Nat × Nat) × DEntry) :=
  let i := c.1
  let j := c.2
  let dt : WithTop ℚ := ((|x.getD (i - 1) 0 - y.getD (j - 1) 0| : ℚ) : WithTop ℚ)
  let e := pickMin ((dlookup D (i - 1, j)).1 + dt, i - 1, j)
    ((dlookup D (i, j - 1)).1 + dt, i, j - 1)
    ((dlookup D (i - 1, j - 1)).1 + dt, i - 1, j - 1)
  ((i, j), e) :: D

/-- The `for i, j in window` loop of `__dtw`: each window cell is shifted
by `(+1, +1)` and processed in list order, starting from the map
`{(0, 0) ↦ (0, 0, 0)}`. -/
def runDtw (x y : List ℚ) (window : List (Nat × Nat)) :
    List ((Nat × Nat) × DEntry) :=
  window.foldl (fun D c => dtwStep x y D (c.1 + 1, c.2 + 1)) [((0, 0), (0, 0, 0))]

/-- The backtracking loop of `__dtw`: from `(i, j)` down to `(0, 0)`,
appending `(i-1, j-1)` and jumping to the stored predecessor.  The loop
variant `i + j` strictly decreases in every terminating Python run, so a
fuel argument initialised to `i + j` reproduces it exactly. -/
def backtrack (D : List ((Nat × Nat) × DEntry)) : Nat → Nat × Nat → List (Nat × Nat)
  | 0, _ => []
  | fuel + 1, (i, j) =>
    if i = 0 ∧ j = 0 then []
    else
      let e := dlookup D (i, j)
      (i - 1, j - 1) :: backtrack D fuel (e.2.1, e.2.2)

/-- The window used by `__dtw` when called as `dtw(x, y)`:
`[(i, j) for i in range(len_x) for j in range(len_y)]`. -/
def fullWindow (lenx leny : Nat) : List (Nat × Nat) :=
  (List.range lenx).flatMap (fun i => (List.range leny).map (fun j => (i, j)))

/-- `__dtw(x, y, window, dist)` for 1-D float input (`dist` = absolute
difference): returns `(D[len_x, len_y][0], path)` with the path
reconstructed backwards from the terminal cell and reversed. -/
def dtw_windowed (x y : List ℚ) (window : List (Nat × Nat)) :
    WithTop ℚ × List (Nat × Nat) :=
  let D := runDtw x y window
  let d := (dlookup D (x.length, y.length)).1
  (d, (backtrack D (x.length + y.length) (x.length, y.length)).reverse)

/-- `dtw(x, y)` of the `fastdtw` package: `__dtw` over the full grid. -/
def dtwPlain (x y : List ℚ) : WithTop ℚ × List (Nat × Nat) :=
  dtw_windowed x y (fullWindow x.length y.length)

/-- `__reduce_by_half`: average consecutive pairs, dropping a trailing
unpaired element. -/
def reduce_by_half : List ℚ → List ℚ
  | a :: b :: rest => (a + b) / 2 :: reduce_by_half rest
  | _ => []

/-- The scan of one `i`-row in the final loop of `__expand_window`:
`for j in range(start_j, len_y)` appends `(i, j)` for the first contiguous
run of cells of `window_` (membership in the doubled cell list `w2`),
records the first hit in `new_start_j`, and breaks at the first miss after
a hit.  Returns the appended cells and `new_start_j`. -/
def rowScan (w2 : List (Int × Int)) (i : Nat) :
    List Nat → Option Nat → List (Nat × Nat) × Option Nat
  | [], ns => ([], ns)
  | j :: rest, ns =>
    if w2.contains ((i : Int), (j : Int)) then
      let r := rowScan w2 i rest (some (ns.getD j))
      ((i, j) :: r.1, r.2)
    else
      match ns with
      | some _ => ([], ns)
      | none => rowScan w2 i rest none

/-- The outer `for i in range(0, len_x)` loop of `__expand_window`,
carrying `start_j` across rows.  Python sets `start_j = new_start_j`
verbatim; a `None` carried into the next row would raise `TypeError`
(`range(None, …)`), which never happens for the windows produced by
`fastdtw` with `radius ≥ 1`, so `none` is modelled as keeping the previous
`start_j`. -/
def rowsLoop (w2 : List (Int × Int)) (leny : Nat) :
    List Nat → Nat → List (Nat × Nat)
  | [], _ => []
  | i :: rest, startJ =>
    let r := rowScan w2 i (List.range' startJ (leny - startJ)) none
    r.1 ++ rowsLoop w2 leny rest (r.2.getD startJ)

/-- `__expand_window(path, len_x, len_y, radius)`:
`path_` = the path cells plus all their `±radius` box offsets (possibly
negative, hence `Int`); `window_` = every such cell doubled into its four
sub-cells; the result is the row-wise contiguous-run selection of
`window_` cells inside the grid. -/
def expand_window (path : List (Nat × Nat)) (lenx leny radius : Nat) :
    List (Nat × Nat) :=
  let pathI : List (Int × Int) := path.map (fun p => ((p.1 : Int), (p.2 : Int)))
  let offs : List Int := (List.range (2 * radius + 1)).map (fun k => (k : Int) - radius)
  let path2 : List (Int × Int) :=
    pathI ++ pathI.flatMap (fun p => offs.flatMap (fun a => offs.map (fun b => (p.1 + a, p.2 + b))))
  let w2 : List (Int × Int) :=
    path2.flatMap (fun p =>
      [(2 * p.1, 2 * p.2), (2 * p.1, 2 * p.2 + 1), (2 * p.1 + 1, 2 * p.2), (2 * p.1 + 1, 2 * p.2 + 1)])
  rowsLoop w2 leny (List.range lenx) 0

/-- `__fastdtw(x, y, radius, dist)` for 1-D input: below
`min_time_size = radius + 2` fall back to the exact `dtw`; otherwise
shrink both sequences by half, recurse, expand the coarse path into a
search window, and run the windowed dynamic program.

The Python recursion terminates because `len(x)` halves at each level;
here it runs on a structural fuel argument (kept kernel-reducible).  With
`fuel = len(x)` (see `fastdtwR`) the `fuel = 0` base case is reached only
for `x = []`, where `len(x) = 0 < radius + 2` makes the Python function
return `dtw(x, y)` as well, so the two definitions agree on all inputs. -/
def fastdtwFuel (radius : Nat) : Nat → List ℚ → List ℚ → WithTop ℚ × List (Nat × Nat)
  | 0, x, y => dtwPlain x y
  | fuel + 1, x, y =>
    if x.length < radius + 2 ∨ y.length < radius + 2 then
      dtwPlain x y
    else
      let xs := reduce_by_half x
      let ys := reduce_by_half y
      let r := fastdtwFuel radius fuel xs ys
      let window := expand_window r.2 x.length y.length radius
      dtw_windowed x y window

/-- `fastdtw` at a given radius: run the recursion with enough fuel. -/
def fastdtwR (radius : Nat) (x y : List ℚ) : WithTop ℚ × List (Nat × Nat) :=
  fastdtwFuel radius x.length x y

/-- `fastdtw(x, y)` with the default `radius = 1`, as called by
`calculate_dtw_distance`. -/
def fastdtwQ (x y : List ℚ) : WithTop ℚ × List (Nat × Nat) := fastdtwR 1 x y

/-- `calculate_dtw_distance(pattern1, pattern2)` (source lines 80–87):
`distance, path = fastdtw(pattern1, pattern2)`. -/
def calculate_dtw_distance (pattern1 pattern2 : List ℚ) :
    WithTop ℚ × List (Nat × Nat) := fastdtwQ pattern1 pattern2

/-! ### The search pipeline (`fetch_data` / `get_recent_pattern` /
`find_similar_patterns`) -/

/-- The `收盘价_归一` column computed once by `fetch_data` (source line
62): the whole close-price series normalized in one call. -/
def normClose (close : List ℚ) : List ℚ := normalize_series close

/-- `get_recent_pattern(a_hours)` (source lines 89–120).  The state
`self.data` is the close-price series `close`; the method returns the
slice `[start_idx, end_idx]` of the whole-series-normalized column
together with the two indices.
`days_needed = max(1, ceil(a_hours / 4))`, raised to `20` when smaller;
raises `ValueError` (`InsufficientHistory`) when the series is shorter
than `days_needed`. -/
def get_recent_pattern (close : List ℚ) (a_hours : ℚ) :
    Except String (List ℚ × Nat × Nat) :=
  let days0 : Int := max 1 ⌈a_hours / 4⌉
  let days : Int := if days0 < 20 then 20 else days0
  if (close.length : Int) < days then
    .error "InsufficientHistory: need days_needed samples"
  else
    let end_idx : Nat := close.length - 1
    let start_idx : Nat := (max 0 ((end_idx : Int) - days + 1)).toNat
    let pattern := ((normClose close).drop start_idx).take (end_idx + 1 - start_idx)
    .ok (pattern, start_idx, end_idx)

/-- `1 / (1 + dtw_distance)` as computed with floats; `dtw_distance` can
only be the IEEE `inf` (modelled `⊤`) in runs the search never produces,
where float arithmetic would give `1/(1+inf) = 0.0`. -/
def invOnePlus (d : WithTop ℚ) : ℚ :=
  if d = ⊤ then 0 else 1 / (1 + WithTop.untop' 0 d)

/-- `score = correlation * (1 / (1 + dtw_distance))`, in the same exact
`n / √d` representation as `corrcoefQ` (`NaN * anything = NaN` is modelled
by `Option.map`). -/
def scoreOf (corr : Option (ℚ × ℚ)) (d : WithTop ℚ) : Option (ℚ × ℚ) :=
  corr.map (fun p => (p.1 * invOnePlus d, p.2))

/-- One entry of the `similarities` list built by `find_similar_patterns`
(source lines 166–175); the `start_date`/`end_date` fields are lookups of
the two indices into the date column and carry no further information, so
they are not repeated here. -/
structure Sim where
  start_idx : Nat
  end_idx : Nat
  dtw_distance : WithTop ℚ
  correlation : Option (ℚ × ℚ)
  score : Option (ℚ × ℚ)
  pattern : List ℚ
deriving DecidableEq

/-- The body of the sliding-window loop (source lines 149–175) at
end-of-loop index `i` (with `i ≥ pattern_length - 1`):
`hist_start = i - pattern_length + 1`, `hist_end = i + 1`,
`hist_pattern = data['收盘价_归一'].iloc[hist_start:hist_end]` — a slice
of the whole-series normalization, not a fresh normalization. -/
def mkSim (normC recent_pattern : List ℚ) (pattern_length i : Nat) : Sim :=
  let hist_start := i + 1 - pattern_length
  let hist_end := i + 1
  let hist_pattern := (normC.drop hist_start).take (hist_end - hist_start)
  let d := (calculate_dtw_distance recent_pattern hist_pattern).1
  let corr := corrcoefQ recent_pattern hist_pattern
  { start_idx := hist_start
    end_idx := hist_end - 1
    dtw_distance := d
    correlation := corr
    score := scoreOf corr d
    pattern := hist_pattern }

/-- The full `similarities` list: one `Sim` per end index
`i ∈ range(pattern_length - 1, search_end)`. -/
def scanSims (normC recent_pattern : List ℚ) (pattern_length search_end : Nat) :
    List Sim :=
  (List.range' (pattern_length - 1) (search_end - (pattern_length - 1))).map
    (mkSim normC recent_pattern pattern_length)

/-- The overlap test of the non-maximum-suppression pass (source lines
186–191): `sim` overlaps the accepted list iff some accepted range
`(u.start_idx, u.end_idx)` fails
`sim.end_idx < u.start_idx - min_gap_days ∨ sim.start_idx > u.end_idx + min_gap_days`
(computed over `Int`, as Python ints may go negative). -/
def overlapB (min_gap_days : Nat) (s : Sim) (acc : List Sim) : Bool :=
  acc.any fun u =>
    !(decide ((s.end_idx : Int) < (u.start_idx : Int) - min_gap_days) ||
      decide ((s.start_idx : Int) > (u.end_idx : Int) + min_gap_days))

/-- The greedy selection loop (source lines 181–198): iterate the
distance-sorted candidates, skip overlapping ones, append the rest, and
break once `len(filtered_similarities) >= top_n` — a test made *after*
the append, so with `top_n = 0` one candidate is still accepted.
`used_ranges` always holds exactly the ranges of `acc`, so `acc` itself
serves as both lists. -/
def nmsLoop (min_gap_days top_n : Nat) : List Sim → List Sim → List Sim
  | [], acc => acc
  | s :: rest, acc =>
    if overlapB min_gap_days s acc then nmsLoop min_gap_days top_n rest acc
    else if top_n ≤ acc.length + 1 then acc ++ [s]
    else nmsLoop min_gap_days top_n rest (acc ++ [s])

/-- The key comparison of
`similarities.sort(key=lambda x: x['dtw_distance'])`. -/
def distLE (u v : Sim) : Prop := u.dtw_distance ≤ v.dtw_distance

instance : DecidableRel distLE :=
  fun u v => inferInstanceAs (Decidable (u.dtw_distance ≤ v.dtw_distance))

instance : IsTotal Sim distLE := ⟨fun u v => le_total u.dtw_distance v.dtw_distance⟩

instance : IsTrans Sim distLE := ⟨fun _ _ _ h h2 => le_trans h h2⟩

/-- Result record of `find_similar_patterns`. -/
structure FSOutput where
  sims : List Sim
  recent_pattern : List ℚ
  recent_start : Nat
  recent_end : Nat
deriving DecidableEq

/-- `find_similar_patterns(a_hours, top_n=5, min_gap_days=30)` (source
lines 122–200):  get the recent pattern, guard
`search_end = recent_start - min_gap_days` against `< pattern_length`
(`InsufficientHistory`), scan, sort by DTW distance (Python's stable
`list.sort`; a stable sort of a list under a total preorder is unique, so
it is modelled by the stable `List.insertionSort`), and greedily select
non-overlapping candidates. -/
def find_similar_patterns (close : List ℚ) (a_hours : ℚ)
    (top_n min_gap_days : Nat) : Except String FSOutput :=
  match get_recent_pattern close a_hours with
  | .error e => .error e
  | .ok (recent_pattern, recent_start, recent_end) =>
    let pattern_length := recent_pattern.length
    let search_end : Int := (recent_start : Int) - min_gap_days
    if search_end < (pattern_length : Int) then
      .error "InsufficientHistory: not enough history before the reference window"
    else
      let sims := scanSims (normClose close) recent_pattern pattern_length search_end.toNat
      let sorted := sims.insertionSort distLE
      let filtered := nmsLoop min_gap_days top_n sorted []
      .ok ⟨filtered, recent_pattern, recent_start, recent_end⟩

/-- The matches returned by a call: the selected list on success, nothing
on a hard failure. -/
def resultSims : Except String FSOutput → List Sim
  | .ok o => o.sims
  | .error _ => []

/-- The candidates scanned by a call (the `similarities` list before
sorting and selection); empty when the call fails before scanning. -/
def scannedSims (close : List ℚ) (a_hours : ℚ) (min_gap_days : Nat) : List Sim :=
  match get_recent_pattern close a_hours with
  | .error _ => []
  | .ok (recent_pattern, recent_start, _) =>
    let pattern_length := recent_pattern.length
    let search_end : Int := (recent_start : Int) - min_gap_days
    if search_end < (pattern_length : Int) then []
    else scanSims (normClose close) recent_pattern pattern_length search_end.toNat

/-- The minimum-separation relation of the specification's
`NonOverlapSelector` contract: ranges `u` and `v` are acceptable together
iff `u.end < v.start - min_gap_days` or `u.start > v.end + min_gap_days`
(over `Int`, as in the Python comparison). -/
def gapOK (min_gap_days : Nat) (u v : Sim) : Prop :=
  (u.end_idx : Int) < (v.start_idx : Int) - (min_gap_days : Int) ∨
    (u.start_idx : Int) > (v.end_idx : Int) + (min_gap_days : Int)

/-- Erase the two informational fields of a candidate (used to state
that ranking and selection never read `correlation` or `score`). -/
def stripCS (s : Sim) : Sim := { s with correlation := none, score := none }

/-! ### Concrete inputs used to test the claims -/

/-- 40 days of constant price 7. -/
def seriesConst : List ℚ := List.replicate 40 7

/-- 40 days of strictly rising prices 1, 2, …, 40. -/
def seriesRamp : List ℚ := (List.range 40).map (fun k => (k : ℚ) + 1)

/-- 20 days of constant price 10 followed by 20 rising days 10, …, 29. -/
def seriesFlatRamp : List ℚ :=
  List.replicate 20 (10 : ℚ) ++ (List.range 20).map (fun k => (10 : ℚ) + k)

/-- First input of the DTW counterexample. -/
def dtwX : List ℚ := [0, 1, 1, 0, 0, 0]

/-- Second input of the DTW counterexample. -/
def dtwY : List ℚ := [1, 0, 0, 0, 1, 0]

/-! ### Shared structural lemmas -/

theorem nmsLoop_sublist (g t : Nat) :
    ∀ (l acc : List Sim), (nmsLoop g t l acc).Sublist (acc ++ l)
  | [], acc => by simp [nmsLoop]
  | s :: rest, acc => by
    rw [nmsLoop]
    split
    · exact (nmsLoop_sublist g t rest acc).trans
        (List.append_sublist_append_left acc |>.2 (List.sublist_cons_self s rest))
    · split
      · exact (List.append_sublist_append_left acc).2
          (List.singleton_sublist.2 (List.mem_cons_self s rest))
      · exact (List.append_assoc acc [s] rest ▸ nmsLoop_sublist g t rest (acc ++ [s]) :
          (nmsLoop g t rest (acc ++ [s])).Sublist (acc ++ s :: rest))

theorem nmsLoop_eq_append (g t : Nat) :
    ∀ (l acc : List Sim), ∃ ext, nmsLoop g t l acc = acc ++ ext
  | [], acc => ⟨[], by simp [nmsLoop]⟩
  | s :: rest, acc => by
    rw [nmsLoop]
    split
    · exact nmsLoop_eq_append g t rest acc
    · split
      · exact ⟨[s], rfl⟩
      · obtain ⟨ext, hext⟩ := nmsLoop_eq_append g t rest (acc ++ [s])
        exact ⟨s :: ext, by simp [hext]⟩

/-! ### Unfolding lemmas for the pipeline -/

theorem find_similar_patterns_ok (close : List ℚ) (a_hours : ℚ)
    (top_n min_gap_days : Nat) (p : List ℚ) (rs re : Nat)
    (h : get_recent_pattern close a_hours = .ok (p, rs, re)) :
    find_similar_patterns close a_hours top_n min_gap_days =
      if (rs : Int) - (min_gap_days : Int) < (p.length : Int) then
        .error "InsufficientHistory: not enough history before the reference window"
      else
        .ok ⟨nmsLoop min_gap_days top_n
            ((scanSims (normClose close) p p.length
              ((rs : Int) - (min_gap_days : Int)).toNat).insertionSort distLE) [],
          p, rs, re⟩ := by
  unfold find_similar_patterns
  rw [h]

theorem scannedSims_ok (close : List ℚ) (a_hours : ℚ) (min_gap_days : Nat)
    (p : List ℚ) (rs re : Nat)
    (h : get_recent_pattern close a_hours = .ok (p, rs, re)) :
    scannedSims close a_hours min_gap_days =
      if (rs : Int) - (min_gap_days : Int) < (p.length : Int) then []
      else scanSims (normClose close) p p.length
        ((rs : Int) - (min_gap_days : Int)).toNat := by
  unfold scannedSims
  rw [h]

theorem find_similar_patterns_err (close : List ℚ) (a_hours : ℚ)
    (top_n min_gap_days : Nat) (e : String)
    (h : get_recent_pattern close a_hours = .error e) :
    find_similar_patterns close a_hours top_n min_gap_days = .error e := by
  unfold find_similar_patterns
  rw [h]

/-- Either a call returns no matches, or its matches are the greedy
selection over the distance-sorted scan of a successfully extracted
reference window. -/
theorem resultSims_cases (close : List ℚ) (a_hours : ℚ) (top_n min_gap_days : Nat) :
    resultSims (find_similar_patterns close a_hours top_n min_gap_days) = [] ∨
    ∃ p rs re, get_recent_pattern close a_hours = .ok (p, rs, re) ∧
      ¬ ((rs : Int) - (min_gap_days : Int) < (p.length : Int)) ∧
      resultSims (find_similar_patterns close a_hours top_n min_gap_days) =
        nmsLoop min_gap_days top_n
          ((scanSims (normClose close) p p.length
            ((rs : Int) - (min_gap_days : Int)).toNat).insertionSort distLE) [] := by
  cases hgr : get_recent_pattern close a_hours with
  | error e =>
    left
    rw [find_similar_patterns_err close a_hours top_n min_gap_days e hgr]
    rfl
  | ok v =>
    obtain ⟨p, rs, re⟩ := v
    by_cases hlt : (rs : Int) - (min_gap_days : Int) < (p.length : Int)
    · left
      rw [find_similar_patterns_ok close a_hours top_n min_gap_days p rs re hgr,
        if_pos hlt]
      rfl
    · right
      exact ⟨p, rs, re, rfl, hlt, by
        rw [find_similar_patterns_ok close a_hours top_n min_gap_days p rs re hgr,
          if_neg hlt]
        rfl⟩

/-- Every scanned candidate is `mkSim` at some end index
`i ≥ pattern_length - 1`. -/
theorem scannedSims_elim {close : List ℚ} {a_hours : ℚ} {min_gap_days : Nat}
    {s : Sim} (hs : s ∈ scannedSims close a_hours min_gap_days) :
    ∃ p rs re i, get_recent_pattern close a_hours = .ok (p, rs, re) ∧
      p.length - 1 ≤ i ∧ s = mkSim (normClose close) p p.length i := by
  unfold scannedSims at hs
  cases hgr : get_recent_pattern close a_hours with
  | error e => rw [hgr] at hs; simp at hs
  | ok v =>
    obtain ⟨p, rs, re⟩ := v
    rw [hgr] at hs
    simp only [scanSims] at hs
    split at hs
    · simp at hs
    · obtain ⟨i, hi, rfl⟩ := List.mem_map.1 hs
      exact ⟨p, rs, re, i, rfl, (List.mem_range'_1.1 hi).1, rfl⟩

/-- Every returned match is one of the scanned candidates. -/
theorem mem_resultSims (close : List ℚ) (a_hours : ℚ) (top_n min_gap_days : Nat)
    {s : Sim}
    (hs : s ∈ resultSims (find_similar_patterns close a_hours top_n min_gap_days)) :
    s ∈ scannedSims close a_hours min_gap_days := by
  rcases resultSims_cases close a_hours top_n min_gap_days with hnil | ⟨p, rs, re, hgr, hge, heq⟩
  · rw [hnil] at hs
    cases hs
  · rw [heq] at hs
    have hmem := (nmsLoop_sublist min_gap_days top_n _ []).subset hs
    rw [List.nil_append, List.mem_insertionSort] at hmem
    rw [scannedSims_ok close a_hours min_gap_days p rs re hgr, if_neg hge]
    exact hmem

/-- The greedy selection preserves the pairwise separation invariant: it
only ever appends a candidate that is `gapOK` with everything accepted so
far. -/
theorem nmsLoop_pairwise_gap (g t : Nat) :
    ∀ (l acc : List Sim), acc.Pairwise (gapOK g) →
      (nmsLoop g t l acc).Pairwise (gapOK g)
  | [], acc, hacc => by rw [nmsLoop]; exact hacc
  | s :: rest, acc, hacc => by
    rw [nmsLoop]
    split
    · exact nmsLoop_pairwise_gap g t rest acc hacc
    · next hov =>
      have hsep : ∀ u ∈ acc, gapOK g u s := by
        intro u hu
        have hov' : overlapB g s acc = false := by
          cases h : overlapB g s acc
          · rfl
          · exact absurd h hov
        unfold overlapB at hov'
        have hu' := List.any_eq_false.1 hov' u hu
        simp only [Bool.not_eq_true, Bool.not_eq_false', Bool.or_eq_true,
          decide_eq_true_eq] at hu'
        unfold gapOK
        rcases hu' with h1 | h1
        · exact Or.inr (by omega)
        · exact Or.inl (by omega)
      have happ : (acc ++ [s]).Pairwise (gapOK g) :=
        List.pairwise_append.2 ⟨hacc, List.pairwise_singleton _ _,
          fun u hu v hv => (List.mem_singleton.1 hv) ▸ hsep u hu⟩
      split
      · exact happ
      · exact nmsLoop_pairwise_gap g t rest (acc ++ [s]) happ

/-- The greedy selection stops at `top_n` accepted candidates (provided
`top_n ≥ 1`; the length check runs only after an append). -/
theorem nmsLoop_length (g t : Nat) :
    ∀ (l acc : List Sim), acc.length < t → (nmsLoop g t l acc).length ≤ t
  | [], acc, hlt => by rw [nmsLoop]; omega
  | s :: rest, acc, hlt => by
    rw [nmsLoop]
    split
    · exact nmsLoop_length g t rest acc hlt
    · split
      · next hstop => simp; omega
      · next hgo =>
        refine nmsLoop_length g t rest (acc ++ [s]) ?_
        simp
        omega

/-- With an empty accumulator, the greedy selection always accepts the
first candidate (nothing can overlap an empty accepted set), so the head
of its output is the head of its input. -/
theorem nmsLoop_head (g t : Nat) (l : List Sim) :
    (nmsLoop g t l []).head? = l.head? := by
  cases l with
  | nil => rfl
  | cons x rest =>
    rw [nmsLoop]
    have hov : overlapB g x [] = false := rfl
    rw [hov]
    simp only [Bool.false_eq_true, if_false]
    split
    · rfl
    · rw [List.nil_append]
      obtain ⟨ext, hext⟩ := nmsLoop_eq_append g t rest [x]
      rw [hext]
      rfl

/-- Two members of a pairwise-related list in both orders must be equal
when the list has no duplicates. -/
theorem pair_sublist_antisym {α : Type} :
    ∀ {l : List α}, l.Nodup → ∀ {a b : α},
      [a, b].Sublist l → [b, a].Sublist l → a = b
  | [], _, a, b, h1, _ => by cases h1
  | x :: t, hl, a, b, h1, h2 => by
    cases h1 with
    | cons _ h1' =>
      cases h2 with
      | cons _ h2' => exact pair_sublist_antisym (List.nodup_cons.1 hl).2 h1' h2'
      | cons₂ _ h2' =>
        exact absurd (h1'.subset (by simp)) (List.nodup_cons.1 hl).1
    | cons₂ _ h1' =>
      cases h2 with
      | cons _ h2' =>
        exact absurd (h2'.subset (by simp)) (List.nodup_cons.1 hl).1
      | cons₂ _ h2' => rfl

/-- Two members of a pairwise-related list form a sublist in relation
order. -/
theorem pair_sublist_of_mem {α : Type} {R : α → α → Prop} :
    ∀ {l : List α}, l.Pairwise R → ∀ {u v : α},
      u ∈ l → v ∈ l → R u v → ¬ R v u → [u, v].Sublist l
  | [], _, u, _, hu, _, _, _ => absurd hu (List.not_mem_nil u)
  | x :: t, hp, u, v, hu, hv, huv, hnvu => by
    rcases List.mem_cons.1 hu with rfl | hut
    · rcases List.mem_cons.1 hv with rfl | hvt
      · exact absurd huv hnvu
      · exact List.Sublist.cons₂ u (List.singleton_sublist.2 hvt)
    · rcases List.mem_cons.1 hv with rfl | hvt
      · exact absurd ((List.pairwise_cons.1 hp).1 u hut) hnvu
      · exact List.Sublist.cons x
          (pair_sublist_of_mem (List.pairwise_cons.1 hp).2 hut hvt huv hnvu)

/-- The scanned candidates appear in chronological order: their start
indices are strictly increasing along the scan. -/
theorem scanSims_pairwise_start (normC rp : List ℚ) (patLen se : Nat) :
    (scanSims normC rp patLen se).Pairwise
      (fun u v => u.start_idx < v.start_idx) := by
  unfold scanSims
  rw [List.pairwise_map]
  refine (List.pairwise_lt_range' (patLen - 1) (se - (patLen - 1)) 1
    (by omega)).imp_of_mem ?_
  intro a b ha hb hab
  have hlo := (List.mem_range'_1.1 ha).1
  simp only [mkSim]
  omega

/-- Stability of the ranking sort: because the scan produces strictly
increasing start indices and the sort is stable, any two entries of the
sorted list are either strictly ordered by distance or tied with the
chronologically earlier one first. -/
theorem insertionSort_pairwise_tie {l : List Sim}
    (h : l.Pairwise (fun u v => u.start_idx < v.start_idx)) :
    (l.insertionSort distLE).Pairwise
      (fun u v => u.dtw_distance < v.dtw_distance ∨
        (u.dtw_distance = v.dtw_distance ∧ u.start_idx < v.start_idx)) := by
  have hndl : l.Nodup := h.imp (fun hlt heq => absurd (heq ▸ hlt) (lt_irrefl _))
  have hnd : (l.insertionSort distLE).Nodup :=
    (List.perm_insertionSort distLE l).symm.nodup hndl
  rw [List.pairwise_iff_forall_sublist]
  intro a b hab
  have hsorted := List.sorted_insertionSort distLE l
  have hle : distLE a b := List.pairwise_iff_forall_sublist.1 hsorted hab
  have hmem_a : a ∈ l :=
    (List.mem_insertionSort distLE).1 (hab.subset (List.mem_cons_self a [b]))
  have hmem_b : b ∈ l :=
    (List.mem_insertionSort distLE).1 (hab.subset (by simp))
  rcases lt_or_eq_of_le hle with hlt | heq
  · exact Or.inl hlt
  · refine Or.inr ⟨heq, ?_⟩
    rcases lt_trichotomy a.start_idx b.start_idx with h1 | h1 | h1
    · exact h1
    · exfalso
      have hmapnd : (l.map (fun s => s.start_idx)).Nodup :=
        (List.pairwise_map.2 h).imp (fun hlt => Nat.ne_of_lt hlt)
      have haeq : a = b := List.inj_on_of_nodup_map hmapnd hmem_a hmem_b h1
      subst haeq
      have := List.Sublist.nodup hab hnd
      simp at this
    · exfalso
      have hba : [b, a].Sublist l :=
        pair_sublist_of_mem h hmem_b hmem_a h1 (by omega)
      have hba' : [b, a].Sublist (l.insertionSort distLE) :=
        List.pair_sublist_insertionSort (le_of_eq heq.symm) hba
      have haeq : a = b := pair_sublist_antisym hnd hab hba'
      rw [haeq] at h1
      exact lt_irrefl _ h1

/-! ### The windowed dynamic program dominates the full recurrence -/

theorem pickMin_fst (u v w : DEntry) : (pickMin u v w).1 = min (min u.1 v.1) w.1 := by
  unfold pickMin
  split
  · next h1 =>
    dsimp only
    split
    · next h2 => rw [min_eq_right h1.le, min_eq_right h2.le]
    · next h2 => rw [min_eq_right h1.le, min_eq_left (not_lt.1 h2)]
  · next h1 =>
    dsimp only
    split
    · next h2 => rw [min_eq_left (not_lt.1 h1), min_eq_right h2.le]
    · next h2 => rw [min_eq_left (not_lt.1 h1), min_eq_left (not_lt.1 h2)]

theorem dlookup_cons_self (D : List ((Nat × Nat) × DEntry)) (k : Nat × Nat)
    (e : DEntry) : dlookup ((k, e) :: D) k = e := by
  unfold dlookup
  rw [List.find?_cons]
  simp

theorem dlookup_cons_ne (D : List ((Nat × Nat) × DEntry)) (k k' : Nat × Nat)
    (e : DEntry) (h : k ≠ k') : dlookup ((k, e) :: D) k' = dlookup D k' := by
  unfold dlookup
  rw [List.find?_cons]
  simp [h]

/-- Processing one window cell preserves the invariant that every map
entry dominates the full recurrence: each of the three candidate values
adds `dt` to a map value that already dominates its cell. -/
theorem dtwD_le_dtwStep (x y : List ℚ) (D : List ((Nat × Nat) × DEntry))
    (hD : ∀ k : Nat × Nat, dtwD x y k.1 k.2 ≤ (dlookup D k).1) (i j : Nat) :
    ∀ k : Nat × Nat, dtwD x y k.1 k.2 ≤ (dlookup (dtwStep x y D (i + 1, j + 1)) k).1 := by
  intro k
  show dtwD x y k.1 k.2 ≤ (dlookup (((i + 1, j + 1), _) :: D) k).1
  by_cases hk : ((i + 1, j + 1) : Nat × Nat) = k
  · subst hk
    rw [dlookup_cons_self, pickMin_fst]
    simp only [Nat.add_sub_cancel]
    have hrec : dtwD x y (i + 1) (j + 1) =
        ((|x.getD i 0 - y.getD j 0| : ℚ) : WithTop ℚ) +
          min (min (dtwD x y i (j + 1)) (dtwD x y (i + 1) j)) (dtwD x y i j) := by
      rw [dtwD]
    set dt : WithTop ℚ := ((|x.getD i 0 - y.getD j 0| : ℚ) : WithTop ℚ) with hdt
    rw [hrec]
    refine le_min (le_min ?_ ?_) ?_
    · calc dt + min (min (dtwD x y i (j + 1)) (dtwD x y (i + 1) j)) (dtwD x y i j)
          ≤ dt + dtwD x y i (j + 1) :=
            add_le_add_left ((min_le_left _ _).trans (min_le_left _ _)) dt
      _ ≤ dt + (dlookup D (i, j + 1)).1 := add_le_add_left (hD (i, j + 1)) dt
      _ = (dlookup D (i, j + 1)).1 + dt := add_comm _ _
    · calc dt + min (min (dtwD x y i (j + 1)) (dtwD x y (i + 1) j)) (dtwD x y i j)
          ≤ dt + dtwD x y (i + 1) j :=
            add_le_add_left ((min_le_left _ _).trans (min_le_right _ _)) dt
      _ ≤ dt + (dlookup D (i + 1, j)).1 := add_le_add_left (hD (i + 1, j)) dt
      _ = (dlookup D (i + 1, j)).1 + dt := add_comm _ _
    · calc dt + min (min (dtwD x y i (j + 1)) (dtwD x y (i + 1) j)) (dtwD x y i j)
          ≤ dt + dtwD x y i j := add_le_add_left (min_le_right _ _) dt
      _ ≤ dt + (dlookup D (i, j)).1 := add_le_add_left (hD (i, j)) dt
      _ = (dlookup D (i, j)).1 + dt := add_comm _ _
  · rw [dlookup_cons_ne _ _ _ _ hk]
    exact hD k

theorem dtwD_le_runDtw_aux (x y : List ℚ) :
    ∀ (w : List (Nat × Nat)) (D : List ((Nat × Nat) × DEntry)),
      (∀ k : Nat × Nat, dtwD x y k.1 k.2 ≤ (dlookup D k).1) →
      ∀ k : Nat × Nat, dtwD x y k.1 k.2 ≤
        (dlookup (w.foldl (fun D c => dtwStep x y D (c.1 + 1, c.2 + 1)) D) k).1
  | [], _, hD, k => hD k
  | c :: w, D, hD, k => by
    rw [List.foldl_cons]
    exact dtwD_le_runDtw_aux x y w _ (dtwD_le_dtwStep x y D hD c.1 c.2) k

/-- The windowed dynamic program of `__dtw` — for *any* window — never
undercuts the full-grid recurrence: the distance it reports is an upper
bound on the true DTW distance. -/
theorem dtwFull_le_dtw_windowed (x y : List ℚ) (w : List (Nat × Nat)) :
    dtwFull x y ≤ (dtw_windowed x y w).1 := by
  have hbase : ∀ k : Nat × Nat, dtwD x y k.1 k.2 ≤
      (dlookup [(((0 : Nat), (0 : Nat)), ((0 : WithTop ℚ), 0, 0))] k).1 := by
    intro k
    by_cases hk : (((0 : Nat), (0 : Nat)) : Nat × Nat) = k
    · subst hk
      rw [dlookup_cons_self]
      simp [dtwD]
    · rw [dlookup_cons_ne _ _ _ _ hk]
      show dtwD x y k.1 k.2 ≤ (⊤ : WithTop ℚ)
      exact le_top
  exact dtwD_le_runDtw_aux x y w _ hbase (x.length, y.length)

/-! ### Upper bounds along one alignment path of the recurrence -/

theorem dtwD_le_up (a b : List ℚ) (i j : Nat) :
    dtwD a b (i + 1) (j + 1) ≤
      ((|a.getD i 0 - b.getD j 0| : ℚ) : WithTop ℚ) + dtwD a b i (j + 1) := by
  rw [dtwD]
  exact add_le_add_left ((min_le_left _ _).trans (min_le_left _ _)) _

theorem dtwD_le_left (a b : List ℚ) (i j : Nat) :
    dtwD a b (i + 1) (j + 1) ≤
      ((|a.getD i 0 - b.getD j 0| : ℚ) : WithTop ℚ) + dtwD a b (i + 1) j := by
  rw [dtwD]
  exact add_le_add_left ((min_le_left _ _).trans (min_le_right _ _)) _

theorem dtwD_le_diag (a b : List ℚ) (i j : Nat) :
    dtwD a b (i + 1) (j + 1) ≤
      ((|a.getD i 0 - b.getD j 0| : ℚ) : WithTop ℚ) + dtwD a b i j := by
  rw [dtwD]
  exact add_le_add_left (min_le_right _ _) _

/-! ### Ranking and selection never read `correlation` or `score` -/

theorem distLE_stripCS (a b : Sim) : distLE (stripCS a) (stripCS b) ↔ distLE a b := by
  simp [distLE, stripCS]

theorem overlapB_stripCS (g : Nat) (s : Sim) (acc : List Sim) :
    overlapB g (stripCS s) (acc.map stripCS) = overlapB g s acc := by
  unfold overlapB
  rw [List.any_map]
  rfl

theorem nmsLoop_map_stripCS (g t : Nat) :
    ∀ (l acc : List Sim),
      nmsLoop g t (l.map stripCS) (acc.map stripCS) = (nmsLoop g t l acc).map stripCS
  | [], acc => by rw [List.map_nil, nmsLoop, nmsLoop]
  | s :: rest, acc => by
    rw [List.map_cons, nmsLoop, nmsLoop, overlapB_stripCS, List.length_map]
    split
    · exact nmsLoop_map_stripCS g t rest acc
    · split
      · rw [List.map_append, List.map_cons, List.map_nil]
      · rw [show acc.map stripCS ++ [stripCS s] = (acc ++ [s]).map stripCS by
          rw [List.map_append, List.map_cons, List.map_nil]]
        exact nmsLoop_map_stripCS g t rest (acc ++ [s])

theorem insertionSort_map_stripCS (l : List Sim) :
    (l.insertionSort distLE).map stripCS = (l.map stripCS).insertionSort distLE :=
  List.map_insertionSort distLE distLE stripCS l
    (fun a _ b _ => (distLE_stripCS a b).symm)

/-- Erasing `correlation` and `score` from every scanned candidate
commutes with the whole ranking-and-selection pass: those two fields are
never inputs to the sort or to the overlap filter. -/
theorem selection_ignores_scores (close : List ℚ) (a_hours : ℚ)
    (top_n min_gap_days : Nat) :
    (resultSims (find_similar_patterns close a_hours top_n min_gap_days)).map stripCS =
      nmsLoop min_gap_days top_n
        (((scannedSims close a_hours min_gap_days).map stripCS).insertionSort distLE)
        [] := by
  cases hgr : get_recent_pattern close a_hours with
  | error e =>
    rw [find_similar_patterns_err close a_hours top_n min_gap_days e hgr]
    rw [show scannedSims close a_hours min_gap_days = [] from by
      unfold scannedSims; rw [hgr]]
    rfl
  | ok v =>
    obtain ⟨p, rs, re⟩ := v
    rw [find_similar_patterns_ok close a_hours top_n min_gap_days p rs re hgr,
      scannedSims_ok close a_hours min_gap_days p rs re hgr]
    split
    · rfl
    · show (nmsLoop min_gap_days top_n _ []).map stripCS = _
      rw [← nmsLoop_map_stripCS min_gap_days top_n _ [], List.map_nil,
        insertionSort_map_stripCS]

/-! ### Shared facts about `normalize_series` -/

theorem normalize_series_length (l : List ℚ) :
    (normalize_series l).length = l.length := by
  unfold normalize_series
  rcases h1 : l.min? with _ | mn <;> rcases h2 : l.max? with _ | mx <;>
    simp_all [List.min?_eq_none_iff, List.max?_eq_none_iff]
  split <;> simp

theorem min?_eq_some_iff_rat {l : List ℚ} {a : ℚ} :
    l.min? = some a ↔ a ∈ l ∧ ∀ b ∈ l, a ≤ b := by
  haveI : Std.Antisymm ((· : ℚ) ≤ ·) := ⟨fun {_ _} h h' => le_antisymm h h'⟩
  exact List.min?_eq_some_iff (fun _ => le_refl _) (fun _ _ => min_choice _ _)
    (fun _ _ _ => le_min_iff)

theorem max?_eq_some_iff_rat {l : List ℚ} {a : ℚ} :
    l.max? = some a ↔ a ∈ l ∧ ∀ b ∈ l, b ≤ a := by
  haveI : Std.Antisymm ((· : ℚ) ≤ ·) := ⟨fun {_ _} h h' => le_antisymm h h'⟩
  exact List.max?_eq_some_iff (fun _ => le_refl _) (fun _ _ => max_choice _ _)
    (fun _ _ _ => max_le_iff)

end StockPatternMatcher

namespace Claims

open StockPatternMatcher

/-- **C8.** For every non-empty numeric sequence, `normalize_series`
returns a sequence of the same length; if all input values are equal it
returns all zeros, and otherwise it returns `(v - min) / (max - min)`
elementwise, so the result has minimum `0` and maximum `1`. -/
theorem c8_normalize_series (l : List ℚ) (hne : l ≠ []) :
    (normalize_series l).length = l.length ∧
    ((∀ a ∈ l, ∀ b ∈ l, a = b) →
      normalize_series l = List.replicate l.length 0) ∧
    (¬ (∀ a ∈ l, ∀ b ∈ l, a = b) →
      ∀ mn mx, l.min? = some mn → l.max? = some mx →
        normalize_series l = l.map (fun v => (v - mn) / (mx - mn)) ∧
        (normalize_series l).min? = some 0 ∧
        (normalize_series l).max? = some 1) := by
  obtain ⟨x, xs, rfl⟩ := List.exists_cons_of_ne_nil hne
  obtain ⟨mn, hmn⟩ := Option.isSome_iff_exists.1 (List.isSome_min?_of_mem (l := x :: xs) (List.mem_cons_self x xs))
  obtain ⟨mx, hmx⟩ := Option.isSome_iff_exists.1 (List.isSome_max?_of_mem (l := x :: xs) (List.mem_cons_self x xs))
  obtain ⟨hmnmem, hmnle⟩ := min?_eq_some_iff_rat.1 hmn
  obtain ⟨hmxmem, hmxle⟩ := max?_eq_some_iff_rat.1 hmx
  refine ⟨normalize_series_length _, ?_, ?_⟩
  · intro hconst
    have heq : mx = mn := hconst _ hmxmem _ hmnmem
    simp [normalize_series, hmn, hmx, heq, List.eq_replicate_iff]
  · intro hnc mn' mx' hmn' hmx'
    rw [hmn'] at hmn; rw [hmx'] at hmx
    obtain ⟨rfl⟩ : mn' = mn := by injection hmn
    obtain ⟨rfl⟩ : mx' = mx := by injection hmx
    have hne' : mx ≠ mn := by
      intro heq
      have hall : ∀ a ∈ x :: xs, a = mn :=
        fun a ha => le_antisymm (heq ▸ hmxle a ha) (hmnle a ha)
      exact hnc (fun a ha b hb => (hall a ha).trans (hall b hb).symm)
    have hlt : mn < mx := lt_of_le_of_ne (hmnle _ hmxmem) (Ne.symm hne')
    have hpos : (0 : ℚ) < mx - mn := sub_pos.2 hlt
    have hform : normalize_series (x :: xs) =
        (x :: xs).map (fun v => (v - mn) / (mx - mn)) := by
      simp [normalize_series, hmn', hmx', hne']
    refine ⟨hform, ?_, ?_⟩
    · rw [hform, min?_eq_some_iff_rat]
      constructor
      · exact List.mem_map.2 ⟨mn, hmnmem, by simp⟩
      · intro b hb
        obtain ⟨v, hv, rfl⟩ := List.mem_map.1 hb
        exact div_nonneg (sub_nonneg.2 (hmnle v hv)) hpos.le
    · rw [hform, max?_eq_some_iff_rat]
      constructor
      · exact List.mem_map.2 ⟨mx, hmxmem, by field_simp⟩
      · intro b hb
        obtain ⟨v, hv, rfl⟩ := List.mem_map.1 hb
        rw [div_le_one hpos]
        exact sub_le_sub_right (hmxle v hv) mn

/-- Witness for C8 at the concrete input `[1, 3]`. -/
theorem c8_witness :
    (normalize_series [(1 : ℚ), 3]).length = 2 :=
  (c8_normalize_series [1, 3] (by decide)).1

/-- **C7.** For every `series_length` and `requested_hours`,
`get_recent_pattern` computes
`days = max(ceil(requested_hours / 4), 20)` (trading hours per day `4`,
`min_samples = 20`), fails with `InsufficientHistory` when
`series_length < days`, and otherwise returns the trailing window with
`end = series_length - 1` and `start = max(0, end - days + 1)`. -/
theorem c7_get_recent_pattern (close : List ℚ) (a_hours : ℚ) :
    ((close.length : Int) < max ⌈a_hours / 4⌉ 20 →
      get_recent_pattern close a_hours =
        .error "InsufficientHistory: need days_needed samples") ∧
    (max ⌈a_hours / 4⌉ 20 ≤ (close.length : Int) →
      ∃ p, get_recent_pattern close a_hours =
        .ok (p, (max 0 (((close.length : Int) - 1) - max ⌈a_hours / 4⌉ 20 + 1)).toNat,
          close.length - 1)) := by
  have hd : (if max 1 ⌈a_hours / 4⌉ < 20 then (20 : Int) else max 1 ⌈a_hours / 4⌉) =
      max ⌈a_hours / 4⌉ 20 := by omega
  constructor
  · intro h
    simp only [get_recent_pattern, hd]
    rw [if_pos h]
  · intro h
    have h1 : (1 : Int) ≤ (close.length : Int) := le_trans (by omega) h
    have hc : ((close.length - 1 : Nat) : Int) = (close.length : Int) - 1 := by omega
    simp only [get_recent_pattern, hd, hc]
    rw [if_neg (not_lt.2 h)]
    exact ⟨_, rfl⟩

/-- Witness for C7 at the two concrete scenarios named by the claim:
a 100-sample series with `requested_hours = 8` yields the window
`[80, 99]`, and a 10-sample series with `requested_hours = 40` fails. -/
theorem c7_witness :
    (∃ p, get_recent_pattern (List.replicate 100 (0 : ℚ)) 8 =
      .ok (p, (max 0 ((((List.replicate 100 (0 : ℚ)).length : Int) - 1) -
        max ⌈(8 : ℚ) / 4⌉ 20 + 1)).toNat, (List.replicate 100 (0 : ℚ)).length - 1)) ∧
    get_recent_pattern (List.replicate 10 (0 : ℚ)) 40 =
      .error "InsufficientHistory: need days_needed samples" :=
  ⟨(c7_get_recent_pattern (List.replicate 100 (0 : ℚ)) 8).2 (by decide),
   (c7_get_recent_pattern (List.replicate 10 (0 : ℚ)) 40).1 (by decide)⟩

/-- **C6.** Given a successfully extracted reference window,
`find_similar_patterns` raises the `InsufficientHistory` failure iff the
candidate range `[pattern_length - 1, recent_start - min_gap_days)` is
empty, and the scanned candidates are exactly the end-indices `i` of that
range, each paired with the window `[i - pattern_length + 1, i]`. -/
theorem c6_scan_range (close : List ℚ) (a_hours : ℚ) (top_n min_gap_days : Nat)
    (p : List ℚ) (rs re : Nat)
    (h : get_recent_pattern close a_hours = .ok (p, rs, re)) :
    ((∀ o, find_similar_patterns close a_hours top_n min_gap_days ≠ .ok o) ↔
      (rs : Int) - (min_gap_days : Int) < (p.length : Int)) ∧
    (scannedSims close a_hours min_gap_days).map (fun s => (s.start_idx, s.end_idx)) =
      (List.range' (p.length - 1)
          (((rs : Int) - (min_gap_days : Int)).toNat - (p.length - 1))).map
        (fun i => (i + 1 - p.length, i)) := by
  constructor
  · rw [find_similar_patterns_ok close a_hours top_n min_gap_days p rs re h]
    split
    · next hlt => exact iff_of_true (fun o hco => by cases hco) hlt
    · next hge =>
      exact iff_of_false (fun hall => hall _ rfl) hge
  · rw [scannedSims_ok close a_hours min_gap_days p rs re h]
    split
    · next hlt =>
      simp
      omega
    · next hge =>
      simp only [scanSims, List.map_map]
      refine List.map_congr_left (fun i hi => ?_)
      simp [mkSim]

set_option maxRecDepth 8000 in
/-- Witness for C6 at the concrete input `seriesConst` (40 flat days,
`a_hours = 80`, `min_gap_days = 0`): the reference window is `[20, 39]`
and the scan succeeds. -/
theorem c6_witness :
    (∀ o, find_similar_patterns seriesConst 80 5 0 ≠ .ok o) ↔
      ((20 : Nat) : Int) - ((0 : Nat) : Int) < ((List.replicate 20 (0 : ℚ)).length : Int) :=
  (c6_scan_range seriesConst 80 5 0 (List.replicate 20 0) 20 39 (by rfl)).1

/-- **C2 (counterexample).** With prices `1, …, 40`, a 20-sample reference
window and `min_gap_days = 0`, the single scanned-and-returned candidate
covers `[0, 19]` and its compared pattern is the slice `k/39` of the
whole-series normalization — which differs from normalizing the window's
own prices (that would be `k/19`). -/
theorem c2_counterexample :
    (resultSims (find_similar_patterns seriesRamp 80 5 0)).map
      (fun s => (s.start_idx, s.end_idx, s.pattern)) =
      [(0, 19, (List.range 20).map (fun k => (k : ℚ) / 39))] ∧
    (List.range 20).map (fun k => (k : ℚ) / 39) ≠
      normalize_series (seriesRamp.take 20) :=
  ⟨by decide, by decide⟩

/-- **C2 (amended).** Every candidate pattern compared by
`find_similar_patterns` is the slice of the single whole-series
normalization computed at fetch time — not a fresh per-window
normalization, so a candidate pattern need not attain minimum 0 and
maximum 1. -/
theorem c2_pattern_is_global_slice (close : List ℚ) (a_hours : ℚ)
    (min_gap_days : Nat) (s : Sim)
    (hs : s ∈ scannedSims close a_hours min_gap_days) :
    s.pattern =
      ((normalize_series close).drop s.start_idx).take
        (s.end_idx + 1 - s.start_idx) := by
  obtain ⟨p, rs, re, i, hgr, hple, rfl⟩ := scannedSims_elim hs
  simp [mkSim, normClose]

/-- Witness for the amended C2 at the concrete ramp input. -/
theorem c2_witness :
    (mkSim (normClose seriesRamp) ((List.range 20).map (fun k => ((k : ℚ) + 20) / 39)) 20 19).pattern =
      ((normalize_series seriesRamp).drop
          (mkSim (normClose seriesRamp) ((List.range 20).map (fun k => ((k : ℚ) + 20) / 39)) 20 19).start_idx).take
        ((mkSim (normClose seriesRamp) ((List.range 20).map (fun k => ((k : ℚ) + 20) / 39)) 20 19).end_idx + 1 -
          (mkSim (normClose seriesRamp) ((List.range 20).map (fun k => ((k : ℚ) + 20) / 39)) 20 19).start_idx) :=
  c2_pattern_is_global_slice seriesRamp 80 0 _ (by exact List.mem_singleton.2 rfl)

/-- **C3 (counterexample).** With a constant-price historical window (20
days at 10) against a varying reference, the returned candidate's
correlation is the undefined value `NaN` (modelled `none`), not `0`, and
its score is likewise undefined rather than finite. -/
theorem c3_counterexample :
    (resultSims (find_similar_patterns seriesFlatRamp 80 5 0)).map
      (fun s => (s.correlation, s.score)) = [(none, none)] := by
  decide

/-- **C3 (amended).** A zero-variance window (reference or candidate)
never aborts the scan: the candidate is still produced, but its Pearson
correlation and score are the undefined `NaN` (modelled `none`) — the
code does not substitute `0`. -/
theorem c3_degenerate_correlation (close : List ℚ) (a_hours : ℚ)
    (top_n min_gap_days : Nat) (out : FSOutput) (s : Sim)
    (hout : find_similar_patterns close a_hours top_n min_gap_days = .ok out)
    (hs : s ∈ out.sims)
    (hdeg : sqDevSum out.recent_pattern = 0 ∨ sqDevSum s.pattern = 0) :
    s.correlation = none ∧ s.score = none := by
  have hs' : s ∈ resultSims (find_similar_patterns close a_hours top_n min_gap_days) := by
    rw [hout]
    exact hs
  obtain ⟨p, rs, re, i, hgr, hple, hmk⟩ :=
    scannedSims_elim (mem_resultSims close a_hours top_n min_gap_days hs')
  have hpeq : out.recent_pattern = p := by
    have hfo := find_similar_patterns_ok close a_hours top_n min_gap_days p rs re hgr
    rw [hout] at hfo
    split at hfo
    · exact absurd hfo (by simp)
    · injection hfo with h2
      rw [h2]
  have hcorr : s.correlation = corrcoefQ p s.pattern := by
    rw [hmk]
    rfl
  have hscore : s.score = scoreOf (corrcoefQ p s.pattern) s.dtw_distance := by
    rw [hmk]
    rfl
  have hnone : corrcoefQ p s.pattern = none := by
    unfold corrcoefQ
    rw [if_pos]
    rw [hpeq] at hdeg
    exact hdeg
  rw [hcorr, hscore, hnone]
  exact ⟨rfl, rfl⟩

/-- Witness for the amended C3 at the concrete flat-then-ramp input. -/
theorem c3_witness :
    (mkSim (normClose seriesFlatRamp) ((List.range 20).map (fun k => (k : ℚ) / 19)) 20 19).correlation = none := by
  refine (c3_degenerate_correlation seriesFlatRamp 80 5 0
    ((find_similar_patterns seriesFlatRamp 80 5 0).toOption.get (by rfl))
    (mkSim (normClose seriesFlatRamp) ((List.range 20).map (fun k => (k : ℚ) / 19)) 20 19)
    (by rfl) (by exact List.mem_singleton.2 rfl) (Or.inr (by decide))).1

/-- **C4.** No two returned matches violate the minimum-gap separation:
for every pair `u` before `v` in the returned list,
`u.end < v.start - min_gap_days` or `u.start > v.end + min_gap_days`
(a symmetric condition, so it covers every unordered pair of distinct
matches). -/
theorem c4_min_gap_invariant (close : List ℚ) (a_hours : ℚ)
    (top_n min_gap_days : Nat) :
    (resultSims (find_similar_patterns close a_hours top_n min_gap_days)).Pairwise
      (gapOK min_gap_days) := by
  rcases resultSims_cases close a_hours top_n min_gap_days with
    hnil | ⟨p, rs, re, hgr, hge, heq⟩
  · rw [hnil]
    exact List.Pairwise.nil
  · rw [heq]
    exact nmsLoop_pairwise_gap min_gap_days top_n _ [] List.Pairwise.nil

/-- **C5 (counterexample).** With `top_n = 0` the selection loop still
accepts one candidate before its post-append length check, so the output
length exceeds `top_n`. -/
theorem c5_counterexample :
    ¬ ((resultSims (find_similar_patterns seriesConst 80 0 0)).length ≤ 0) := by
  decide

/-- **C5 (amended).** Provided `top_n ≥ 1`, the returned list has length
at most `top_n` and is sorted in ascending order of `dtw_distance` (the
sort key used by the ranking); and distance is the sole ranking and
selection key — erasing `correlation`/`score` from every candidate
commutes with the whole ranking-and-selection pass. -/
theorem c5_ranking (close : List ℚ) (a_hours : ℚ) (top_n min_gap_days : Nat)
    (htop : 1 ≤ top_n) :
    (resultSims (find_similar_patterns close a_hours top_n min_gap_days)).length ≤ top_n ∧
    (resultSims (find_similar_patterns close a_hours top_n min_gap_days)).Pairwise
      (fun u v => u.dtw_distance ≤ v.dtw_distance) ∧
    (resultSims (find_similar_patterns close a_hours top_n min_gap_days)).map stripCS =
      nmsLoop min_gap_days top_n
        (((scannedSims close a_hours min_gap_days).map stripCS).insertionSort distLE)
        [] := by
  refine ⟨?_, ?_, selection_ignores_scores close a_hours top_n min_gap_days⟩ <;>
    rcases resultSims_cases close a_hours top_n min_gap_days with
      hnil | ⟨p, rs, re, hgr, hge, heq⟩
  · rw [hnil]
    simp
  · rw [heq]
    exact nmsLoop_length min_gap_days top_n _ [] (by simpa using htop)
  · rw [hnil]
    exact List.Pairwise.nil
  · rw [heq]
    have hsorted := List.sorted_insertionSort distLE
      (scanSims (normClose close) p p.length ((rs : Int) - (min_gap_days : Int)).toNat)
    have hsub := nmsLoop_sublist min_gap_days top_n
      ((scanSims (normClose close) p p.length
        ((rs : Int) - (min_gap_days : Int)).toNat).insertionSort distLE) []
    rw [List.nil_append] at hsub
    exact (List.Pairwise.sublist hsub hsorted).imp (fun h => h)

/-- Witness for the amended C5 at the concrete constant-price input. -/
theorem c5_witness :
    (resultSims (find_similar_patterns seriesConst 80 5 0)).length ≤ 5 ∧
    (resultSims (find_similar_patterns seriesConst 80 5 0)).Pairwise
      (fun u v => u.dtw_distance ≤ v.dtw_distance) :=
  ⟨(c5_ranking seriesConst 80 5 0 (by omega)).1,
   (c5_ranking seriesConst 80 5 0 (by omega)).2.1⟩

/-- **C9.** Whenever `find_similar_patterns` returns a non-empty list,
its first match attains the minimum `dtw_distance` over all scanned
candidates — no candidate, selected or suppressed, has a strictly smaller
distance (the candidates are sorted ascending by distance and the first
candidate can never overlap an empty accepted set). -/
theorem c9_first_attains_min (close : List ℚ) (a_hours : ℚ)
    (top_n min_gap_days : Nat) (first : Sim)
    (hhead : (resultSims
      (find_similar_patterns close a_hours top_n min_gap_days)).head? = some first) :
    ∀ s ∈ scannedSims close a_hours min_gap_days,
      first.dtw_distance ≤ s.dtw_distance := by
  intro s hs
  rcases resultSims_cases close a_hours top_n min_gap_days with
    hnil | ⟨p, rs, re, hgr, hge, heq⟩
  · rw [hnil] at hhead
    cases hhead
  · rw [heq, nmsLoop_head] at hhead
    rw [scannedSims_ok close a_hours min_gap_days p rs re hgr, if_neg hge] at hs
    have hs' : s ∈ (scanSims (normClose close) p p.length
        ((rs : Int) - (min_gap_days : Int)).toNat).insertionSort distLE :=
      (List.mem_insertionSort distLE).2 hs
    have hsorted := List.sorted_insertionSort distLE
      (scanSims (normClose close) p p.length ((rs : Int) - (min_gap_days : Int)).toNat)
    cases hsort : (scanSims (normClose close) p p.length
        ((rs : Int) - (min_gap_days : Int)).toNat).insertionSort distLE with
    | nil =>
      rw [hsort] at hhead
      cases hhead
    | cons hd tl =>
      rw [hsort] at hhead hs' hsorted
      injection hhead with h1
      subst h1
      rcases List.mem_cons.1 hs' with rfl | hmem
      · exact le_refl _
      · exact List.rel_of_sorted_cons hsorted s hmem

/-- Witness for C9 at the concrete constant-price input: the single
scanned candidate is also the first returned match. -/
theorem c9_witness :
    (mkSim (normClose seriesConst) (List.replicate 20 0) 20 19).dtw_distance ≤
      (mkSim (normClose seriesConst) (List.replicate 20 0) 20 19).dtw_distance :=
  c9_first_attains_min seriesConst 80 5 0 _ (by rfl) _
    (by exact List.mem_singleton.2 rfl)

/-- **C10.** `find_similar_patterns` is deterministic (the embedding is a
pure function, so two invocations agree definitionally), and candidates
with equal `dtw_distance` are ranked in chronological scan order
(ascending start index) because the ranking sort is stable and the scan
produces strictly increasing start indices. -/
theorem c10_deterministic_stable (close : List ℚ) (a_hours : ℚ)
    (top_n min_gap_days : Nat) :
    find_similar_patterns close a_hours top_n min_gap_days =
      find_similar_patterns close a_hours top_n min_gap_days ∧
    (resultSims (find_similar_patterns close a_hours top_n min_gap_days)).Pairwise
      (fun u v => u.dtw_distance < v.dtw_distance ∨
        (u.dtw_distance = v.dtw_distance ∧ u.start_idx < v.start_idx)) := by
  refine ⟨rfl, ?_⟩
  rcases resultSims_cases close a_hours top_n min_gap_days with
    hnil | ⟨p, rs, re, hgr, hge, heq⟩
  · rw [hnil]
    exact List.Pairwise.nil
  · rw [heq]
    have hpw := insertionSort_pairwise_tie
      (scanSims_pairwise_start (normClose close) p p.length
        ((rs : Int) - (min_gap_days : Int)).toNat)
    refine List.Pairwise.sublist ?_ hpw
    have := nmsLoop_sublist min_gap_days top_n
      ((scanSims (normClose close) p p.length
        ((rs : Int) - (min_gap_days : Int)).toNat).insertionSort distLE) []
    rwa [List.nil_append] at this

/-- **C1 (counterexample).** At `x = [0,1,1,0,0,0]`, `y = [1,0,0,0,1,0]`
the code's `calculate_dtw_distance` (the `fastdtw` approximation with
`radius = 1`) returns `2`, while the full dynamic-programming recurrence
admits the alignment
`(0,0),(0,1),(0,2),(0,3),(1,4),(2,4),(3,5),(4,5),(5,5)` of total cost
`1` — so the returned distance is not the full-DP distance. -/
theorem c1_counterexample :
    (calculate_dtw_distance dtwX dtwY).1 ≠ dtwFull dtwX dtwY := by
  have h2 : (calculate_dtw_distance dtwX dtwY).1 = ((2 : ℚ) : WithTop ℚ) := by decide
  have h00 : dtwD dtwX dtwY 0 0 = 0 := by rw [dtwD]
  have h1 : dtwFull dtwX dtwY ≤ ((1 : ℚ) : WithTop ℚ) := by
    show dtwD dtwX dtwY 6 6 ≤ _
    refine le_trans (dtwD_le_up dtwX dtwY 5 5) ?_
    refine le_trans (add_le_add_left (dtwD_le_up dtwX dtwY 4 5) _) ?_
    refine le_trans (add_le_add_left (add_le_add_left
      (dtwD_le_diag dtwX dtwY 3 5) _) _) ?_
    refine le_trans (add_le_add_left (add_le_add_left (add_le_add_left
      (dtwD_le_up dtwX dtwY 2 4) _) _) _) ?_
    refine le_trans (add_le_add_left (add_le_add_left (add_le_add_left
      (add_le_add_left (dtwD_le_diag dtwX dtwY 1 4) _) _) _) _) ?_
    refine le_trans (add_le_add_left (add_le_add_left (add_le_add_left
      (add_le_add_left (add_le_add_left (dtwD_le_left dtwX dtwY 0 3) _) _) _) _) _) ?_
    refine le_trans (add_le_add_left (add_le_add_left (add_le_add_left
      (add_le_add_left (add_le_add_left (add_le_add_left
        (dtwD_le_left dtwX dtwY 0 2) _) _) _) _) _) _) ?_
    refine le_trans (add_le_add_left (add_le_add_left (add_le_add_left
      (add_le_add_left (add_le_add_left (add_le_add_left (add_le_add_left
        (dtwD_le_left dtwX dtwY 0 1) _) _) _) _) _) _) _) ?_
    refine le_trans (add_le_add_left (add_le_add_left (add_le_add_left
      (add_le_add_left (add_le_add_left (add_le_add_left (add_le_add_left
        (add_le_add_left (dtwD_le_diag dtwX dtwY 0 0) _) _) _) _) _) _) _) _) ?_
    rw [h00]
    decide
  intro heq
  rw [heq] at h2
  have := h2 ▸ h1
  rw [WithTop.coe_le_coe] at this
  norm_num at this

/-- **C1 (amended).** The distance returned by `calculate_dtw_distance`
is the FastDTW (`radius = 1`) approximation: it always dominates (`≥`)
the distance defined by the full dynamic-programming recurrence, but need
not equal it.  (The final step of every FastDTW call is the windowed
dynamic program, which only restricts the set of alignments considered.) -/
theorem c1_fastdtw_dominates_full_dp (a b : List ℚ) :
    dtwFull a b ≤ (calculate_dtw_distance a b).1 := by
  show dtwFull a b ≤ (fastdtwFuel 1 a.length a b).1
  suffices h : ∀ (fuel : Nat) (x y : List ℚ),
      dtwFull x y ≤ (fastdtwFuel 1 fuel x y).1 from h a.length a b
  intro fuel
  cases fuel with
  | zero => exact fun x y => dtwFull_le_dtw_windowed x y _
  | succ n =>
    intro x y
    rw [fastdtwFuel]
    split
    · exact dtwFull_le_dtw_windowed x y _
    · exact dtwFull_le_dtw_windowed x y _

end Claims
